import Mathlib

/-!
# Previsor de Gastos — forecast engine, shallow embedding

A shallow embedding of `monthly_forecast` from `src/app.py` (lines 104-140),
the one computational core of the repository:

- records `(dt, amount)` are aggregated by calendar month (sum);
- the aggregated series is reindexed to a contiguous monthly range with
  `0.0` fill (`resample("MS").sum()` + `asfreq("MS", fill_value=0.0)`);
- an ordinary-least-squares line `y = a*t + b` is fitted over the integer
  positions `t = 0..n-1` (`np.linalg.lstsq`; for a single month the
  least-norm solution is slope `0`, intercept the lone value);
- the historical fitted values blend `0.6 * trend + 0.4 * rolling mean`
  (window 3, `min_periods=1`);
- `months_ahead` future months continue the trend positions and reuse the
  constant `ts.tail(3).mean()` as their moving-average component.

Calendar months are embedded as the index `year * 12 + (month - 1)`, which
is in order-preserving bijection with `(year, month)` pairs; amounts use ℚ
as the exact model of the floating-point arithmetic of the source.
-/

namespace Previsor

/-- A calendar date, as carried by the `dt` column of the expenses frame. -/
structure Date where
  year : ℕ
  month : ℕ
  day : ℕ
deriving DecidableEq, Repr

/-- One expense record: the `(dt, amount)` pair `monthly_forecast` consumes. -/
structure Record where
  dt : Date
  amount : ℚ
deriving DecidableEq, Repr

/-- The calendar month of a date, as a single index (`resample("MS")`
groups by year+month and discards the day). -/
def monthIdx (d : Date) : ℕ := d.year * 12 + (d.month - 1)

/-- The month index of every record, in input order. -/
def monthsOf (rs : List Record) : List ℕ := rs.map (fun r => monthIdx r.dt)

/-- First observed month (minimum of the month indices; 0 on empty input,
which `monthly_forecast` never consults). -/
def minMonth (rs : List Record) : ℕ :=
  match monthsOf rs with
  | [] => 0
  | m :: ms => ms.foldl min m

/-- Last observed month (maximum of the month indices). -/
def maxMonth (rs : List Record) : ℕ :=
  match monthsOf rs with
  | [] => 0
  | m :: ms => ms.foldl max m

/-- Sum of the amounts recorded in month `m` (`resample("MS").sum()` on one
bin; 0 when the bin is empty). -/
def monthlyTotal (rs : List Record) (m : ℕ) : ℚ :=
  ((rs.filter (fun r => monthIdx r.dt = m)).map Record.amount).sum

/-- The gap-filled actual series `ts`: one monthly total per calendar month
from the first to the last observed month, empty months filled with 0. -/
def actualSeries (rs : List Record) : List ℚ :=
  (List.range (maxMonth rs - minMonth rs + 1)).map
    (fun t => monthlyTotal rs (minMonth rs + t))

/-- The OLS fit `np.linalg.lstsq(A, ts.values)` with design matrix columns
`t` and `1`: for `n ≥ 2` the unique least-squares line through
`(t, ys[t])`, `t = 0..n-1`, via the normal equations; for `n ≤ 1` the
least-norm solution `(0, y₀)` that `lstsq` returns on the rank-1 system. -/
def olsFit (ys : List ℚ) : ℚ × ℚ :=
  let n := ys.length
  if n ≤ 1 then (0, ys.headD 0)
  else
    let nQ : ℚ := n
    let sumY := ys.sum
    let sumT : ℚ := ((List.range n).map (fun t => (t : ℚ))).sum
    let sumT2 : ℚ := ((List.range n).map (fun t => (t : ℚ) * t)).sum
    let sumTY : ℚ := ((List.range n).map (fun (t : ℕ) => (t : ℚ) * ys.getD t 0)).sum
    let a := (nQ * sumTY - sumT * sumY) / (nQ * sumT2 - sumT * sumT)
    (a, (sumY - a * sumT) / nQ)

/-- `ts.rolling(window=3, min_periods=1).mean()` at position `t`: the mean
of the values at positions `max 0 (t-2) .. t`. -/
def movingAvg (ys : List ℚ) (t : ℕ) : ℚ :=
  let w := (ys.take (t + 1)).drop (t - 2)
  w.sum / (w.length : ℚ)

/-- `ts.tail(3).mean()`: the mean of the last `min 3 n` values. -/
def tail3mean (ys : List ℚ) : ℚ :=
  let w := ys.drop (ys.length - 3)
  w.sum / (w.length : ℚ)

/-- One output row: the month, the observed total (`NaN`, i.e. absent, for
future months) and the blended forecast. -/
structure MonthlyPoint where
  month : ℕ
  actual : Option ℚ
  forecast : ℚ
deriving DecidableEq, Repr

/-- `monthly_forecast(df, months_ahead)` from `src/app.py`: empty input
gives an empty frame; otherwise the historical rows
`(month, actual, 0.6*trend + 0.4*rolling_mean)` are followed by
`months_ahead` future rows whose trend continues the integer positions and
whose moving-average component is the constant `ts.tail(3).mean()`. -/
def monthly_forecast (rs : List Record) (months_ahead : ℕ) : List MonthlyPoint :=
  if rs.isEmpty then []
  else
    let m0 := minMonth rs
    let ys := actualSeries rs
    let n := ys.length
    let ab := olsFit ys
    let hist := (List.range n).map (fun t =>
      { month := m0 + t
        actual := some (ys.getD t 0)
        forecast := 3/5 * (ab.1 * (t : ℚ) + ab.2) + 2/5 * movingAvg ys t })
    let fut := (List.range months_ahead).map (fun k =>
      { month := m0 + n + k
        actual := none
        forecast := 3/5 * (ab.1 * ((n + k : ℕ) : ℚ) + ab.2) + 2/5 * tail3mean ys })
    hist ++ fut

end Previsor

namespace Previsor

/-! Facts about the month range: `minMonth`/`maxMonth` are the least and
greatest observed month indices, and are invariant under permutation of
the records. -/

lemma isEmpty_false {α : Type} {l : List α} (h : l ≠ []) : l.isEmpty = false := by
  cases l with
  | nil => exact absurd rfl h
  | cons a l => rfl

lemma foldl_min_le_init : ∀ {m : ℕ} {l : List ℕ}, l.foldl min m ≤ m := by
  intro m l
  induction l generalizing m with
  | nil => exact le_refl m
  | cons a l ih =>
      exact le_trans (ih (m := min m a)) (min_le_left m a)

lemma foldl_min_le {x : ℕ} : ∀ {m : ℕ} {l : List ℕ}, x ∈ m :: l → l.foldl min m ≤ x := by
  intro m l
  induction l generalizing m with
  | nil =>
      intro hx
      simp only [List.mem_cons, List.not_mem_nil, or_false] at hx
      subst hx
      exact le_refl x
  | cons a l ih =>
      intro hx
      simp only [List.foldl_cons]
      simp only [List.mem_cons] at hx
      rcases hx with rfl | rfl | hx
      · exact le_trans foldl_min_le_init (min_le_left _ _)
      · exact le_trans foldl_min_le_init (min_le_right _ _)
      · exact ih (List.mem_cons_of_mem _ hx)

lemma foldl_min_mem : ∀ {m : ℕ} {l : List ℕ}, l.foldl min m ∈ m :: l := by
  intro m l
  induction l generalizing m with
  | nil => simp
  | cons a l ih =>
      simp only [List.foldl_cons]
      have h := ih (m := min m a)
      simp only [List.mem_cons] at h ⊢
      rcases h with h | h
      · rcases min_choice m a with h' | h'
        · exact Or.inl (h.trans h')
        · exact Or.inr (Or.inl (h.trans h'))
      · exact Or.inr (Or.inr h)

lemma le_foldl_max_init : ∀ {m : ℕ} {l : List ℕ}, m ≤ l.foldl max m := by
  intro m l
  induction l generalizing m with
  | nil => exact le_refl m
  | cons a l ih =>
      exact le_trans (le_max_left m a) (ih (m := max m a))

lemma le_foldl_max {x : ℕ} : ∀ {m : ℕ} {l : List ℕ}, x ∈ m :: l → x ≤ l.foldl max m := by
  intro m l
  induction l generalizing m with
  | nil =>
      intro hx
      simp only [List.mem_cons, List.not_mem_nil, or_false] at hx
      subst hx
      exact le_refl x
  | cons a l ih =>
      intro hx
      simp only [List.foldl_cons]
      simp only [List.mem_cons] at hx
      rcases hx with rfl | rfl | hx
      · exact le_trans (le_max_left _ _) le_foldl_max_init
      · exact le_trans (le_max_right _ _) le_foldl_max_init
      · exact ih (List.mem_cons_of_mem _ hx)

lemma foldl_max_mem : ∀ {m : ℕ} {l : List ℕ}, l.foldl max m ∈ m :: l := by
  intro m l
  induction l generalizing m with
  | nil => simp
  | cons a l ih =>
      simp only [List.foldl_cons]
      have h := ih (m := max m a)
      simp only [List.mem_cons] at h ⊢
      rcases h with h | h
      · rcases max_choice m a with h' | h'
        · exact Or.inl (h.trans h')
        · exact Or.inr (Or.inl (h.trans h'))
      · exact Or.inr (Or.inr h)

lemma minMonth_le_of_mem {rs : List Record} {x : ℕ} (hx : x ∈ monthsOf rs) :
    minMonth rs ≤ x := by
  cases rs with
  | nil => simp [monthsOf] at hx
  | cons s tl =>
      have : monthsOf (s :: tl) = monthIdx s.dt :: monthsOf tl := rfl
      rw [this] at hx
      simpa [minMonth, monthsOf] using foldl_min_le hx

lemma le_maxMonth_of_mem {rs : List Record} {x : ℕ} (hx : x ∈ monthsOf rs) :
    x ≤ maxMonth rs := by
  cases rs with
  | nil => simp [monthsOf] at hx
  | cons s tl =>
      have : monthsOf (s :: tl) = monthIdx s.dt :: monthsOf tl := rfl
      rw [this] at hx
      simpa [maxMonth, monthsOf] using le_foldl_max hx

lemma minMonth_mem {rs : List Record} (h : rs ≠ []) : minMonth rs ∈ monthsOf rs := by
  cases rs with
  | nil => exact absurd rfl h
  | cons s tl => exact foldl_min_mem

lemma maxMonth_mem {rs : List Record} (h : rs ≠ []) : maxMonth rs ∈ monthsOf rs := by
  cases rs with
  | nil => exact absurd rfl h
  | cons s tl => exact foldl_max_mem

lemma minMonth_le {rs : List Record} {r : Record} (hr : r ∈ rs) :
    minMonth rs ≤ monthIdx r.dt :=
  minMonth_le_of_mem (List.mem_map_of_mem _ hr)

lemma le_maxMonth {rs : List Record} {r : Record} (hr : r ∈ rs) :
    monthIdx r.dt ≤ maxMonth rs :=
  le_maxMonth_of_mem (List.mem_map_of_mem _ hr)

lemma minMonth_le_maxMonth {rs : List Record} (h : rs ≠ []) :
    minMonth rs ≤ maxMonth rs :=
  le_maxMonth_of_mem (minMonth_mem h)

lemma minMonth_perm {rs rs' : List Record} (h : rs.Perm rs') :
    minMonth rs = minMonth rs' := by
  rcases eq_or_ne rs [] with rfl | hne
  · rw [h.symm.eq_nil]
  · have hne' : rs' ≠ [] := by
      intro e
      rw [e] at h
      exact hne h.eq_nil
    have hmaps : (monthsOf rs).Perm (monthsOf rs') := h.map _
    apply le_antisymm
    · exact minMonth_le_of_mem (hmaps.symm.subset (minMonth_mem hne'))
    · exact minMonth_le_of_mem (hmaps.subset (minMonth_mem hne))

lemma maxMonth_perm {rs rs' : List Record} (h : rs.Perm rs') :
    maxMonth rs = maxMonth rs' := by
  rcases eq_or_ne rs [] with rfl | hne
  · rw [h.symm.eq_nil]
  · have hne' : rs' ≠ [] := by
      intro e
      rw [e] at h
      exact hne h.eq_nil
    have hmaps : (monthsOf rs).Perm (monthsOf rs') := h.map _
    apply le_antisymm
    · exact le_maxMonth_of_mem (hmaps.subset (maxMonth_mem hne))
    · exact le_maxMonth_of_mem (hmaps.symm.subset (maxMonth_mem hne'))

lemma monthlyTotal_perm {rs rs' : List Record} (h : rs.Perm rs') (m : ℕ) :
    monthlyTotal rs m = monthlyTotal rs' m :=
  List.Perm.sum_eq (List.Perm.map _ (List.Perm.filter _ h))

lemma actualSeries_perm {rs rs' : List Record} (h : rs.Perm rs') :
    actualSeries rs = actualSeries rs' := by
  simp only [actualSeries, minMonth_perm h, maxMonth_perm h]
  exact List.map_congr_left (fun t _ => by rw [monthlyTotal_perm h])

/-- C5: on an empty records frame, `monthly_forecast` returns the empty
output frame for every look-ahead, raising no error. -/
theorem claim_empty_input (months_ahead : ℕ) :
    monthly_forecast [] months_ahead = [] := rfl

/-- C3: a single record `{dt := 2024-01-15, amount := 100}` with one future
month yields exactly the two points `(2024-01, actual 100, forecast 100)`
and `(2024-02, no actual, forecast 100)`: the degenerate fit collapses both
the trend and the moving average to the lone observed value. -/
theorem claim_single_month :
    monthly_forecast [⟨⟨2024, 1, 15⟩, 100⟩] 1
      = [⟨monthIdx ⟨2024, 1, 1⟩, some 100, 100⟩,
         ⟨monthIdx ⟨2024, 2, 1⟩, none, 100⟩] := by
  norm_num [monthly_forecast, actualSeries, minMonth, maxMonth, monthsOf,
    monthlyTotal, olsFit, movingAvg, tail3mean, monthIdx, List.range_succ,
    List.filter]

/-- C10: forecasts are not clamped at zero: with the non-negative monthly
totals 400 then 100, one month ahead, the future forecast is the strictly
negative value -20. -/
theorem claim_negative_forecast :
    (∀ r ∈ [(⟨⟨2024, 1, 10⟩, 400⟩ : Record), ⟨⟨2024, 2, 10⟩, 100⟩], 0 ≤ r.amount)
    ∧ (monthly_forecast [⟨⟨2024, 1, 10⟩, 400⟩, ⟨⟨2024, 2, 10⟩, 100⟩] 1).getD 2
        ⟨0, none, 0⟩
      = ⟨monthIdx ⟨2024, 3, 1⟩, none, -20⟩
    ∧ ((monthly_forecast [⟨⟨2024, 1, 10⟩, 400⟩, ⟨⟨2024, 2, 10⟩, 100⟩] 1).getD 2
        ⟨0, none, 0⟩).forecast < 0 := by
  norm_num [monthly_forecast, actualSeries, minMonth, maxMonth, monthsOf,
    monthlyTotal, olsFit, movingAvg, tail3mean, monthIdx, List.range_succ,
    List.filter]

/-- C8: `monthly_forecast` is invariant under permutation of the input
records — monthly aggregation and the min/max month range are
order-independent. -/
theorem claim_order_independence (rs rs' : List Record) (h : rs.Perm rs')
    (months_ahead : ℕ) :
    monthly_forecast rs months_ahead = monthly_forecast rs' months_ahead := by
  rcases eq_or_ne rs [] with rfl | hne
  · rw [h.symm.eq_nil]
  · have hne' : rs' ≠ [] := by
      intro e
      rw [e] at h
      exact hne h.eq_nil
    simp only [monthly_forecast, isEmpty_false hne, isEmpty_false hne',
      minMonth_perm h, actualSeries_perm h]

/-- C8 witness: swapping two concrete records leaves the forecast frame
unchanged. -/
theorem claim_order_independence_witness :
    ([⟨⟨2024, 1, 15⟩, 100⟩, ⟨⟨2024, 2, 20⟩, 50⟩] : List Record).Perm
        [⟨⟨2024, 2, 20⟩, 50⟩, ⟨⟨2024, 1, 15⟩, 100⟩]
    ∧ monthly_forecast [⟨⟨2024, 1, 15⟩, 100⟩, ⟨⟨2024, 2, 20⟩, 50⟩] 3
      = monthly_forecast [⟨⟨2024, 2, 20⟩, 50⟩, ⟨⟨2024, 1, 15⟩, 100⟩] 3 :=
  ⟨List.Perm.swap _ _ _,
   claim_order_independence _ _ (List.Perm.swap _ _ _) 3⟩

/-- C1: for a non-empty input the output months are the contiguous
ascending range from the first observed month to `months_ahead` past the
last observed month; there are `maxMonth - minMonth + 1` historical points
and `months_ahead` future points, and a historical month no record falls
in still appears, with actual total 0. -/
theorem claim_contiguity (rs : List Record) (hne : rs ≠ []) (months_ahead : ℕ) :
    (monthly_forecast rs months_ahead).map MonthlyPoint.month
      = (List.range (maxMonth rs - minMonth rs + 1 + months_ahead)).map
          (fun i => minMonth rs + i)
    ∧ ((monthly_forecast rs months_ahead).filter
        (fun p => p.actual.isSome)).length = maxMonth rs - minMonth rs + 1
    ∧ ((monthly_forecast rs months_ahead).filter
        (fun p => p.actual.isNone)).length = months_ahead
    ∧ ∀ p ∈ monthly_forecast rs months_ahead, p.actual.isSome →
        (∀ r ∈ rs, monthIdx r.dt ≠ p.month) → p.actual = some 0 := by
  have hlen : (actualSeries rs).length = maxMonth rs - minMonth rs + 1 := by
    simp [actualSeries]
  refine ⟨?_, ?_, ?_, ?_⟩
  · simp only [monthly_forecast, isEmpty_false hne, Bool.false_eq_true,
      if_false, List.map_append, List.map_map, hlen]
    conv_rhs => rw [List.range_add, List.map_append, List.map_map]
    have h1 : ∀ t ∈ List.range (maxMonth rs - minMonth rs + 1),
        (MonthlyPoint.month ∘ fun u =>
          ({ month := minMonth rs + u
             actual := some ((actualSeries rs).getD u 0)
             forecast := 3/5 * ((olsFit (actualSeries rs)).1 * (u : ℚ)
                 + (olsFit (actualSeries rs)).2)
               + 2/5 * movingAvg (actualSeries rs) u } : MonthlyPoint)) t
        = ((fun i => minMonth rs + i)) t := fun t _ => rfl
    rw [List.map_congr_left h1]
    have h2 : ∀ t ∈ List.range months_ahead,
        (MonthlyPoint.month ∘ fun u =>
          ({ month := minMonth rs + (maxMonth rs - minMonth rs + 1) + u
             actual := none
             forecast := 3/5 * ((olsFit (actualSeries rs)).1
                  * (((maxMonth rs - minMonth rs + 1 + u : ℕ)) : ℚ)
                 + (olsFit (actualSeries rs)).2)
               + 2/5 * tail3mean (actualSeries rs) } : MonthlyPoint)) t
        = ((fun i => minMonth rs + i) ∘
            fun x => maxMonth rs - minMonth rs + 1 + x) t := fun t _ => by
      simp [Function.comp, Nat.add_assoc]
    rw [List.map_congr_left h2]
  · simp only [monthly_forecast, isEmpty_false hne, Bool.false_eq_true,
      if_false, List.filter_append, List.filter_map, List.length_append,
      List.length_map, hlen]
    simp [Function.comp_def]
  · simp only [monthly_forecast, isEmpty_false hne, Bool.false_eq_true,
      if_false, List.filter_append, List.filter_map, List.length_append,
      List.length_map, hlen]
    simp [Function.comp_def]
  · intro p hp hsome habsent
    simp only [monthly_forecast, isEmpty_false hne, Bool.false_eq_true,
      if_false, List.mem_append] at hp
    rcases hp with hp | hp
    · rcases List.mem_map.1 hp with ⟨t, ht, rfl⟩
      simp only [List.mem_range] at ht
      simp only [Option.some.injEq]
      have hget : (actualSeries rs).getD t 0 = monthlyTotal rs (minMonth rs + t) := by
        simp [actualSeries, List.getD_eq_getElem?_getD, List.getElem?_map,
          List.getElem?_range, hlen.symm ▸ ht]
      rw [hget]
      unfold monthlyTotal
      rw [List.filter_eq_nil_iff.mpr (fun r hr => by
        simpa using habsent r hr)]
      simp
    · rcases List.mem_map.1 hp with ⟨t, ht, rfl⟩
      simp at hsome

/-- C1 witness: two records two months apart, with a recordless month in
between and one future month. -/
theorem claim_contiguity_witness :
    ([⟨⟨2024, 1, 5⟩, 50⟩, ⟨⟨2024, 3, 7⟩, 70⟩] : List Record) ≠ []
    ∧ ((monthly_forecast [⟨⟨2024, 1, 5⟩, 50⟩, ⟨⟨2024, 3, 7⟩, 70⟩] 1).map
          MonthlyPoint.month
        = (List.range (maxMonth [⟨⟨2024, 1, 5⟩, 50⟩, ⟨⟨2024, 3, 7⟩, 70⟩]
              - minMonth [⟨⟨2024, 1, 5⟩, 50⟩, ⟨⟨2024, 3, 7⟩, 70⟩] + 1 + 1)).map
            (fun i => minMonth [⟨⟨2024, 1, 5⟩, 50⟩, ⟨⟨2024, 3, 7⟩, 70⟩] + i)
      ∧ ((monthly_forecast [⟨⟨2024, 1, 5⟩, 50⟩, ⟨⟨2024, 3, 7⟩, 70⟩] 1).filter
          (fun p => p.actual.isSome)).length
        = maxMonth [⟨⟨2024, 1, 5⟩, 50⟩, ⟨⟨2024, 3, 7⟩, 70⟩]
            - minMonth [⟨⟨2024, 1, 5⟩, 50⟩, ⟨⟨2024, 3, 7⟩, 70⟩] + 1
      ∧ ((monthly_forecast [⟨⟨2024, 1, 5⟩, 50⟩, ⟨⟨2024, 3, 7⟩, 70⟩] 1).filter
          (fun p => p.actual.isNone)).length = 1
      ∧ ∀ p ∈ monthly_forecast [⟨⟨2024, 1, 5⟩, 50⟩, ⟨⟨2024, 3, 7⟩, 70⟩] 1,
          p.actual.isSome →
          (∀ r ∈ ([⟨⟨2024, 1, 5⟩, 50⟩, ⟨⟨2024, 3, 7⟩, 70⟩] : List Record),
            monthIdx r.dt ≠ p.month) → p.actual = some 0) :=
  ⟨by decide, claim_contiguity _ (by decide) 1⟩

/-- C4: every future point reuses one and the same moving-average
constant, `tail3mean` of the gap-filled series, and its forecast is
`0.6 * (a*t + b) + 0.4 * that constant` with `t` continuing the integer
positions of the historical months. -/
theorem claim_future_ma_constant (rs : List Record) (hne : rs ≠ []) (k j : ℕ)
    (hj : j < k) :
    (monthly_forecast rs k).getD ((actualSeries rs).length + j) ⟨0, none, 0⟩
      = { month := minMonth rs + (actualSeries rs).length + j
          actual := none
          forecast := 3/5 * ((olsFit (actualSeries rs)).1
                * (((actualSeries rs).length + j : ℕ) : ℚ)
              + (olsFit (actualSeries rs)).2)
            + 2/5 * tail3mean (actualSeries rs) } := by
  simp only [monthly_forecast, isEmpty_false hne, Bool.false_eq_true, if_false,
    List.getD_eq_getElem?_getD]
  rw [List.getElem?_append_right (by simp)]
  simp [List.getElem?_range, hj]

/-- C4 witness: with two historical months and two future months, the
second future point carries the constant moving-average component. -/
theorem claim_future_ma_constant_witness :
    ([⟨⟨2024, 1, 15⟩, 100⟩, ⟨⟨2024, 2, 20⟩, 50⟩] : List Record) ≠ []
    ∧ (1 : ℕ) < 2
    ∧ (monthly_forecast [⟨⟨2024, 1, 15⟩, 100⟩, ⟨⟨2024, 2, 20⟩, 50⟩] 2).getD
        ((actualSeries [⟨⟨2024, 1, 15⟩, 100⟩, ⟨⟨2024, 2, 20⟩, 50⟩]).length + 1)
        ⟨0, none, 0⟩
      = { month := minMonth [⟨⟨2024, 1, 15⟩, 100⟩, ⟨⟨2024, 2, 20⟩, 50⟩]
            + (actualSeries [⟨⟨2024, 1, 15⟩, 100⟩, ⟨⟨2024, 2, 20⟩, 50⟩]).length + 1
          actual := none
          forecast := 3/5 * ((olsFit (actualSeries
                  [⟨⟨2024, 1, 15⟩, 100⟩, ⟨⟨2024, 2, 20⟩, 50⟩])).1
                * (((actualSeries
                    [⟨⟨2024, 1, 15⟩, 100⟩, ⟨⟨2024, 2, 20⟩, 50⟩]).length + 1 : ℕ) : ℚ)
              + (olsFit (actualSeries
                  [⟨⟨2024, 1, 15⟩, 100⟩, ⟨⟨2024, 2, 20⟩, 50⟩])).2)
            + 2/5 * tail3mean (actualSeries
                [⟨⟨2024, 1, 15⟩, 100⟩, ⟨⟨2024, 2, 20⟩, 50⟩]) } :=
  ⟨by decide, by decide, claim_future_ma_constant _ (by decide) 2 1 (by decide)⟩

/-- C6: with zero look-ahead the output is exactly the historical block:
every point carries an observed actual and the blended fitted value, and
no future point appears. -/
theorem claim_zero_lookahead (rs : List Record) (hne : rs ≠ []) :
    monthly_forecast rs 0
      = (List.range (actualSeries rs).length).map (fun t =>
          { month := minMonth rs + t
            actual := some ((actualSeries rs).getD t 0)
            forecast := 3/5 * ((olsFit (actualSeries rs)).1 * (t : ℚ)
                + (olsFit (actualSeries rs)).2)
              + 2/5 * movingAvg (actualSeries rs) t })
    ∧ ∀ p ∈ monthly_forecast rs 0, p.actual.isSome := by
  constructor
  · simp [monthly_forecast, isEmpty_false hne]
  · intro p hp
    simp only [monthly_forecast, isEmpty_false hne, Bool.false_eq_true, if_false,
      List.range_zero, List.map_nil, List.append_nil] at hp
    rcases List.mem_map.1 hp with ⟨t, _, rfl⟩
    rfl

/-- C6 witness: the two-record sample with zero look-ahead. -/
theorem claim_zero_lookahead_witness :
    ([⟨⟨2024, 1, 15⟩, 100⟩, ⟨⟨2024, 2, 20⟩, 50⟩] : List Record) ≠ []
    ∧ (monthly_forecast [⟨⟨2024, 1, 15⟩, 100⟩, ⟨⟨2024, 2, 20⟩, 50⟩] 0
        = (List.range (actualSeries
              [⟨⟨2024, 1, 15⟩, 100⟩, ⟨⟨2024, 2, 20⟩, 50⟩]).length).map (fun t =>
            { month := minMonth [⟨⟨2024, 1, 15⟩, 100⟩, ⟨⟨2024, 2, 20⟩, 50⟩] + t
              actual := some ((actualSeries
                  [⟨⟨2024, 1, 15⟩, 100⟩, ⟨⟨2024, 2, 20⟩, 50⟩]).getD t 0)
              forecast := 3/5 * ((olsFit (actualSeries
                      [⟨⟨2024, 1, 15⟩, 100⟩, ⟨⟨2024, 2, 20⟩, 50⟩])).1 * (t : ℚ)
                  + (olsFit (actualSeries
                      [⟨⟨2024, 1, 15⟩, 100⟩, ⟨⟨2024, 2, 20⟩, 50⟩])).2)
                + 2/5 * movingAvg (actualSeries
                    [⟨⟨2024, 1, 15⟩, 100⟩, ⟨⟨2024, 2, 20⟩, 50⟩]) t })
      ∧ ∀ p ∈ monthly_forecast [⟨⟨2024, 1, 15⟩, 100⟩, ⟨⟨2024, 2, 20⟩, 50⟩] 0,
          p.actual.isSome) :=
  ⟨by decide, claim_zero_lookahead _ (by decide)⟩

/-- C7: the edge cases are total, with defined outputs: the degenerate
one-month fit falls back to slope 0 and intercept the lone value (the
least-norm solution of the rank-one system), empty input yields the empty
frame, a single record yields `1 + months_ahead` rows, and with zero
look-ahead the lone row repeats the observed value as its forecast. -/
theorem claim_no_failure (y : ℚ) (d : Date) (k : ℕ) :
    olsFit [y] = (0, y)
    ∧ monthly_forecast [] k = []
    ∧ (monthly_forecast [⟨d, y⟩] k).length = 1 + k
    ∧ monthly_forecast [⟨d, y⟩] 0 = [⟨monthIdx d, some y, y⟩] := by
  have hys : actualSeries [⟨d, y⟩] = [y] := by
    simp [actualSeries, minMonth, maxMonth, monthsOf, monthlyTotal,
      List.filter_cons, List.range_succ]
  refine ⟨by simp [olsFit], rfl, ?_, ?_⟩
  · simp [monthly_forecast, hys]
  · simp [monthly_forecast, hys, olsFit, movingAvg, tail3mean, minMonth,
      monthsOf, List.range_succ]
    ring

/-! Summation helpers for the conservation claim: every record is counted
in exactly one monthly bin of the gap-filled range. -/

lemma sum_map_add_q (f g : ℕ → ℚ) (l : List ℕ) :
    (l.map (fun t => f t + g t)).sum = (l.map f).sum + (l.map g).sum := by
  induction l with
  | nil => simp
  | cons a l ih =>
      simp only [List.map_cons, List.sum_cons, ih]
      ring

lemma sum_ite_single (m0 m : ℕ) (c : ℚ) (n : ℕ) :
    ((List.range n).map (fun t => if m = m0 + t then c else 0)).sum
      = if m0 ≤ m ∧ m < m0 + n then c else 0 := by
  induction n with
  | zero =>
      rw [if_neg (by omega)]
      simp
  | succ n ih =>
      rw [List.range_succ, List.map_append, List.sum_append, ih]
      simp only [List.map_cons, List.map_nil, List.sum_cons, List.sum_nil]
      split_ifs <;> first | omega | ring

lemma sum_range_monthlyTotal (m0 n : ℕ) :
    ∀ rs : List Record,
      (∀ r ∈ rs, m0 ≤ monthIdx r.dt ∧ monthIdx r.dt < m0 + n) →
      ((List.range n).map (fun t => monthlyTotal rs (m0 + t))).sum
        = (rs.map Record.amount).sum := by
  intro rs
  induction rs with
  | nil =>
      intro _
      simp [monthlyTotal]
  | cons r rs ih =>
      intro hb
      have hr := hb r (List.mem_cons_self _ _)
      have hsplit : ∀ t : ℕ, monthlyTotal (r :: rs) (m0 + t)
          = (if monthIdx r.dt = m0 + t then r.amount else 0)
            + monthlyTotal rs (m0 + t) := by
        intro t
        by_cases hc : monthIdx r.dt = m0 + t
        · simp [monthlyTotal, List.filter_cons, hc]
        · simp [monthlyTotal, List.filter_cons, hc]
      simp only [hsplit]
      rw [sum_map_add_q (fun t => if monthIdx r.dt = m0 + t then r.amount else 0)
          (fun t => monthlyTotal rs (m0 + t)) (List.range n),
        sum_ite_single m0 (monthIdx r.dt) r.amount n,
        ih (fun x hx => hb x (List.mem_cons_of_mem _ hx)),
        if_pos hr]
      simp

lemma filterMap_const_some {α β : Type} (f : α → β) (l : List α) :
    l.filterMap (fun a => some (f a)) = l.map f := by
  induction l with
  | nil => simp
  | cons a l ih => simp [List.filterMap_cons, ih]

lemma filterMap_const_none {α β : Type} (l : List α) :
    l.filterMap (fun _ => (none : Option β)) = [] := by
  induction l with
  | nil => simp
  | cons a l ih => simp [List.filterMap_cons, ih]

lemma map_getD_self (l : List ℚ) :
    (List.range l.length).map (fun t => l.getD t 0) = l := by
  apply List.ext_getElem
  · simp
  · intro i h1 h2
    simp [List.getD_eq_getElem?_getD, List.getElem?_eq_getElem h2]

/-- C9: the sum of the `actual` values reported over the historical points
equals the sum of all input amounts — aggregation by month plus zero
gap-filling conserves the total spend. -/
theorem claim_total_conservation (rs : List Record) (months_ahead : ℕ) :
    ((monthly_forecast rs months_ahead).filterMap MonthlyPoint.actual).sum
      = (rs.map Record.amount).sum := by
  rcases eq_or_ne rs [] with rfl | hne
  · simp [monthly_forecast]
  · have hb : ∀ r ∈ rs, minMonth rs ≤ monthIdx r.dt
        ∧ monthIdx r.dt < minMonth rs + (maxMonth rs - minMonth rs + 1) := by
      intro r hr
      have hx1 := minMonth_le hr
      have hx2 := le_maxMonth hr
      have hx3 := minMonth_le_maxMonth hne
      omega
    simp only [monthly_forecast, isEmpty_false hne, Bool.false_eq_true, if_false,
      List.filterMap_append, List.filterMap_map, Function.comp_def,
      filterMap_const_some, filterMap_const_none, List.sum_append,
      List.sum_nil, add_zero, map_getD_self]
    unfold actualSeries
    exact sum_range_monthlyTotal _ _ rs hb

/-- C2: one record per month over four consecutive months with totals
100, 200, 300, 400: for any look-ahead of at least one month, the first
future forecast is `0.6 * 500 + 0.4 * mean(200, 300, 400) = 420`. -/
theorem claim_trend_recovery (d1 d2 d3 d4 : Date)
    (hd2 : monthIdx d2 = monthIdx d1 + 1) (hd3 : monthIdx d3 = monthIdx d1 + 2)
    (hd4 : monthIdx d4 = monthIdx d1 + 3) (k : ℕ) (hk : 1 ≤ k) :
    ((monthly_forecast [⟨d1, 100⟩, ⟨d2, 200⟩, ⟨d3, 300⟩, ⟨d4, 400⟩] k).getD 4
      ⟨0, none, 0⟩).forecast = 420 := by
  have hmin : minMonth [⟨d1, 100⟩, ⟨d2, 200⟩, ⟨d3, 300⟩, ⟨d4, 400⟩] = monthIdx d1 := by
    simp only [minMonth, monthsOf, List.map_cons, List.map_nil, List.foldl_cons,
      List.foldl_nil, hd2, hd3, hd4]
    omega
  have hmax : maxMonth [⟨d1, 100⟩, ⟨d2, 200⟩, ⟨d3, 300⟩, ⟨d4, 400⟩]
      = monthIdx d1 + 3 := by
    simp only [maxMonth, monthsOf, List.map_cons, List.map_nil, List.foldl_cons,
      List.foldl_nil, hd2, hd3, hd4]
    omega
  have e1 : monthlyTotal [⟨d1, 100⟩, ⟨d2, 200⟩, ⟨d3, 300⟩, ⟨d4, 400⟩]
      (monthIdx d1) = 100 := by
    have c2 : ¬(monthIdx d2 = monthIdx d1) := by omega
    have c3 : ¬(monthIdx d3 = monthIdx d1) := by omega
    have c4 : ¬(monthIdx d4 = monthIdx d1) := by omega
    simp [monthlyTotal, List.filter_cons, c2, c3, c4]
  have e2 : monthlyTotal [⟨d1, 100⟩, ⟨d2, 200⟩, ⟨d3, 300⟩, ⟨d4, 400⟩]
      (monthIdx d1 + 1) = 200 := by
    have c1 : ¬(monthIdx d1 = monthIdx d1 + 1) := by omega
    have c3 : ¬(monthIdx d3 = monthIdx d1 + 1) := by omega
    have c4 : ¬(monthIdx d4 = monthIdx d1 + 1) := by omega
    simp [monthlyTotal, List.filter_cons, c1, c3, c4, hd2]
  have e3 : monthlyTotal [⟨d1, 100⟩, ⟨d2, 200⟩, ⟨d3, 300⟩, ⟨d4, 400⟩]
      (monthIdx d1 + 2) = 300 := by
    have c1 : ¬(monthIdx d1 = monthIdx d1 + 2) := by omega
    have c2 : ¬(monthIdx d2 = monthIdx d1 + 2) := by omega
    have c4 : ¬(monthIdx d4 = monthIdx d1 + 2) := by omega
    simp [monthlyTotal, List.filter_cons, c1, c2, c4, hd3]
  have e4 : monthlyTotal [⟨d1, 100⟩, ⟨d2, 200⟩, ⟨d3, 300⟩, ⟨d4, 400⟩]
      (monthIdx d1 + 3) = 400 := by
    have c1 : ¬(monthIdx d1 = monthIdx d1 + 3) := by omega
    have c2 : ¬(monthIdx d2 = monthIdx d1 + 3) := by omega
    have c3 : ¬(monthIdx d3 = monthIdx d1 + 3) := by omega
    simp [monthlyTotal, List.filter_cons, c1, c2, c3, hd4]
  have hactual : actualSeries [⟨d1, 100⟩, ⟨d2, 200⟩, ⟨d3, 300⟩, ⟨d4, 400⟩]
      = [100, 200, 300, 400] := by
    have hn4 : maxMonth [⟨d1, 100⟩, ⟨d2, 200⟩, ⟨d3, 300⟩, ⟨d4, 400⟩]
        - monthIdx d1 + 1 = 4 := by
      omega
    simp only [actualSeries, hmin, hn4]
    simp [List.range_succ, e1, e2, e3, e4]
  have hab : olsFit [100, 200, 300, 400] = (100, 100) := by
    norm_num [olsFit, List.range_succ]
  have ht3 : tail3mean [100, 200, 300, 400] = 300 := by
    norm_num [tail3mean]
  obtain ⟨j, rfl⟩ : ∃ j, k = j + 1 := ⟨k - 1, by omega⟩
  simp only [monthly_forecast, List.isEmpty_cons, Bool.false_eq_true, if_false,
    hactual, hab, ht3, List.length_cons, List.length_nil,
    List.range_succ_eq_map]
  simp [List.range_succ, List.getD_cons_succ, List.getD_cons_zero]
  norm_num

/-- C2 witness: the four-month linear history starting at January 2024
with one future month forecasts 420 for May 2024. -/
theorem claim_trend_recovery_witness :
    monthIdx ⟨2024, 2, 10⟩ = monthIdx ⟨2024, 1, 15⟩ + 1
    ∧ monthIdx ⟨2024, 3, 5⟩ = monthIdx ⟨2024, 1, 15⟩ + 2
    ∧ monthIdx ⟨2024, 4, 1⟩ = monthIdx ⟨2024, 1, 15⟩ + 3
    ∧ (1 : ℕ) ≤ 1
    ∧ ((monthly_forecast [⟨⟨2024, 1, 15⟩, 100⟩, ⟨⟨2024, 2, 10⟩, 200⟩,
          ⟨⟨2024, 3, 5⟩, 300⟩, ⟨⟨2024, 4, 1⟩, 400⟩] 1).getD 4
        ⟨0, none, 0⟩).forecast = 420 :=
  ⟨by decide, by decide, by decide, by decide,
   claim_trend_recovery ⟨2024, 1, 15⟩ ⟨2024, 2, 10⟩ ⟨2024, 3, 5⟩ ⟨2024, 4, 1⟩
     (by decide) (by decide) (by decide) 1 (by decide)⟩

end Previsor
